import Mathlib

/-!
Verification of the `new_RPG` procedural world generator and chunk cache.

The development shallowly embeds the Python sources `src/map/noise.py`,
`src/map/world_gen.py` and `src/map/chunk_manager.py`:

* Python floats are idealized as rationals `ℚ`; the IEEE special values that the
  per-chunk min-max normalization can produce are captured by the type `PyF`.
* The process-global `random` module is modelled by an explicit state threaded
  through every operation (structure `PyRandom`); `random.seed` replaces that
  state by a function of the seed alone.
* `np.power(h, 1.4)` is a real-exponent power whose values are irrational on
  rational inputs; it is abstracted as an explicit function parameter `pw`,
  about which theorems assume only facts that are true of `x ↦ x ** 1.4`
  (`0 ↦ 0`, `1 ↦ 1`, `NaN ↦ NaN`).
* `OrderedDict` is modelled as an association list in insertion/access order.
-/

attribute [local semireducible] Rat.mul Rat.add Rat.sub Rat.inv Rat.ofScientific

set_option maxRecDepth 16384

namespace NewRPG

/-- Truncation of a rational toward zero: Python `int(...)` applied to a float,
and the C-style cast performed by `ndarray.astype`. -/
def truncQ (q : ℚ) : ℤ := if 0 ≤ q then ⌊q⌋ else ⌈q⌉

/-- Value of one float cell after the normalization step: either an ordinary
(rational-idealized) float or one of the IEEE special values that division by
zero introduces. -/
inductive PyF where
  | nan : PyF
  | pinf : PyF
  | ninf : PyF
  | fin : ℚ → PyF
deriving DecidableEq

/-- Elementwise float division `a / b` as performed by numpy on ordinary
operands: `0/0` is NaN, `a/0` with `a ≠ 0` is a signed infinity, otherwise
exact. -/
def pyDiv (a b : ℚ) : PyF :=
  if b = 0 then (if a = 0 then PyF.nan else if 0 < a then PyF.pinf else PyF.ninf)
  else PyF.fin (a / b)

/-- Multiplication of a float cell by a finite constant (used with `1.3`),
propagating the special values as IEEE does for a positive constant. -/
def pyMulC (a : PyF) (c : ℚ) : PyF :=
  match a with
  | PyF.nan => PyF.nan
  | PyF.pinf => if 0 < c then PyF.pinf else if c < 0 then PyF.ninf else PyF.nan
  | PyF.ninf => if 0 < c then PyF.ninf else if c < 0 then PyF.pinf else PyF.nan
  | PyF.fin q => PyF.fin (q * c)

/-- Subtraction of a finite constant from a float cell (used with `0.15`). -/
def pySubC (a : PyF) (c : ℚ) : PyF :=
  match a with
  | PyF.nan => PyF.nan
  | PyF.pinf => PyF.pinf
  | PyF.ninf => PyF.ninf
  | PyF.fin q => PyF.fin (q - c)

/-- Model of `np.clip(a, lo, hi)`: NaN propagates, infinities saturate, finite values
are clamped. -/
def pyClip (a : PyF) (lo hi : ℚ) : PyF :=
  match a with
  | PyF.nan => PyF.nan
  | PyF.pinf => PyF.fin hi
  | PyF.ninf => PyF.fin lo
  | PyF.fin q => PyF.fin (min (max q lo) hi)

/-- Float comparison `a < c` against a finite constant; any comparison with
NaN is false. -/
def pyLtC (a : PyF) (c : ℚ) : Bool :=
  match a with
  | PyF.nan => false
  | PyF.pinf => false
  | PyF.ninf => true
  | PyF.fin q => decide (q < c)

/-- Float comparison `a >= c` against a finite constant; any comparison with
NaN is false. -/
def pyGeC (a : PyF) (c : ℚ) : Bool :=
  match a with
  | PyF.nan => false
  | PyF.pinf => true
  | PyF.ninf => false
  | PyF.fin q => decide (c ≤ q)

/-- Model of the process-global `random` module.  The Mersenne Twister itself
is not repository code; the model keeps the interface the source relies on:
`seed` replaces the global state by a function of the seed alone (as
`random.seed` does), `shuffle` produces a rearrangement of its input list from
the current state, and `random` draws one scalar and advances the state. -/
structure PyRandom where
  State : Type
  seed : Option ℤ → State
  shuffle : List ℕ → State → List ℕ × State
  random : State → ℚ × State

/-- Source `PerlinNoise.fade`: `t*t*t*(t*(t*6 - 15) + 10)`. -/
def fade (t : ℚ) : ℚ := t * t * t * (t * (t * 6 - 15) + 10)

/-- Source `PerlinNoise.lerp`: `a + t*(b - a)`. -/
def lerp (t a b : ℚ) : ℚ := a + t * (b - a)

/-- Source `PerlinNoise.grad`.  `hash & 15` is `hsh % 16`, `h & 1` is `h % 2`, and
`h & 2 == 0` is `h / 2 % 2 == 0`. -/
def grad (hsh : ℕ) (x y z : ℚ) : ℚ :=
  let h := hsh % 16
  let u := if h < 8 then x else y
  let v := if h < 4 then y else if h = 12 ∨ h = 14 then x else z
  (if h % 2 = 0 then u else -u) + (if h / 2 % 2 = 0 then v else -v)

/-- List indexing of the permutation table, `self.permutation[i]`.  Every index
the source produces is within bounds of the doubled 512-entry table, so the
default value is never consulted for tables of the source's shape. -/
def permIdx (p : List ℕ) (i : ℕ) : ℕ := p.getD i 0

/-- Body of `PerlinNoise.noise` after the cell coordinates `X Y Z` (already
masked by `& 255`) and the fractional offsets `x y z` have been computed. -/
def noiseLattice (p : List ℕ) (X Y Z : ℕ) (x y z : ℚ) : ℚ :=
  let u := fade x
  let v := fade y
  let w := fade z
  let A := permIdx p X + Y
  let AA := permIdx p A + Z
  let AB := permIdx p (A + 1) + Z
  let B := permIdx p (X + 1) + Y
  let BA := permIdx p B + Z
  let BB := permIdx p (B + 1) + Z
  lerp w
    (lerp v
      (lerp u (grad (permIdx p AA) x y z) (grad (permIdx p BA) (x - 1) y z))
      (lerp u (grad (permIdx p AB) x (y - 1) z) (grad (permIdx p BB) (x - 1) (y - 1) z)))
    (lerp v
      (lerp u (grad (permIdx p (AA + 1)) x y (z - 1))
        (grad (permIdx p (BA + 1)) (x - 1) y (z - 1)))
      (lerp u (grad (permIdx p (AB + 1)) x (y - 1) (z - 1))
        (grad (permIdx p (BB + 1)) (x - 1) (y - 1) (z - 1))))

/-- Source `PerlinNoise.noise`: `X = int(math.floor(x)) & 255` is `(⌊x⌋ % 256).toNat`
(Python `&` on possibly negative ints is the nonnegative remainder), and the
coordinates are replaced by their fractional parts. -/
def noise (p : List ℕ) (x y z : ℚ) : ℚ :=
  noiseLattice p (⌊x⌋ % 256).toNat (⌊y⌋ % 256).toNat (⌊z⌋ % 256).toNat
    (x - ⌊x⌋) (y - ⌊y⌋) (z - ⌊z⌋)

/-- Source `PerlinNoise.__init__`: shuffle `list(range(256))` with the global RNG,
then double the table (`self.permutation *= 2`). -/
def perlin_init (R : PyRandom) (g : R.State) : List ℕ × R.State :=
  let s := R.shuffle (List.range 256) g
  (s.1 ++ s.1, s.2)

/-- First-match lookup in the association list modelling the `ValueNoise.grid`
dict (its keys are unique because entries are only added when absent). -/
def lookupG : List ((ℤ × ℤ) × ℚ) → (ℤ × ℤ) → Option ℚ
  | [], _ => none
  | (k, v) :: l, k2 => if k = k2 then some v else lookupG l k2

/-- The `ValueNoise.grid` dict. -/
abbrev VGrid := List ((ℤ × ℤ) × ℚ)

/-- Source `ValueNoise.get_value`: key is the integer truncation of the coordinates;
a missing key is filled with one draw of `random.random()` from the global RNG
state, then the stored value is returned. -/
def get_value (R : PyRandom) (vn : VGrid) (x y : ℚ) (g : R.State) :
    ℚ × VGrid × R.State :=
  let k := (truncQ x, truncQ y)
  match lookupG vn k with
  | some v => (v, vn, g)
  | none =>
      let r := R.random g
      (r.1, vn ++ [(k, r.1)], r.2)

/-- Source `ValueNoise.smooth_noise`: nine `get_value` calls in the source's
left-to-right evaluation order (four floor/ceil corners, four sides, then the
center), combined as `corners/16 + sides/8 + center/4`. -/
def smooth_noise (R : PyRandom) (vn : VGrid) (x y : ℚ) (g : R.State) :
    ℚ × VGrid × R.State :=
  let c1 := get_value R vn (⌊x⌋ : ℤ) (⌊y⌋ : ℤ) g
  let c2 := get_value R c1.2.1 (⌊x⌋ : ℤ) (⌈y⌉ : ℤ) c1.2.2
  let c3 := get_value R c2.2.1 (⌈x⌉ : ℤ) (⌊y⌋ : ℤ) c2.2.2
  let c4 := get_value R c3.2.1 (⌈x⌉ : ℤ) (⌈y⌉ : ℤ) c3.2.2
  let corners := (c1.1 + c2.1 + c3.1 + c4.1) / 16
  let s1 := get_value R c4.2.1 (⌊x⌋ : ℤ) y c4.2.2
  let s2 := get_value R s1.2.1 x (⌊y⌋ : ℤ) s1.2.2
  let s3 := get_value R s2.2.1 (⌈x⌉ : ℤ) y s2.2.2
  let s4 := get_value R s3.2.1 x (⌈y⌉ : ℤ) s3.2.2
  let sides := (s1.1 + s2.1 + s3.1 + s4.1) / 8
  let ce := get_value R s4.2.1 x y s4.2.2
  (corners + sides + ce.1 / 4, ce.2.1, ce.2.2)

/-- Source `ValueNoise.__init__` seeds the global RNG (`random.seed(seed)`) and starts
with an empty lattice dict; the resulting global state is a function of the
seed alone. -/
def value_noise_init (R : PyRandom) (seed : Option ℤ) : VGrid × R.State :=
  ([], R.seed seed)

/-! ## WorldGenerator (`src/map/world_gen.py`) -/

/-- An N×N numpy array, row major: entry `[y][x]` is cell `(x, y)`. -/
abbrev Grid (α : Type) := List (List α)

/-- Mutable state of a `WorldGenerator`: configuration, the Perlin permutation
table fixed at construction, and the value-noise lattice dict. -/
structure WGen where
  chunk_size : ℕ
  water_level : ℚ
  perm : List ℕ
  vgrid : VGrid

/-- Source `WorldGenerator.__init__`: builds `PerlinNoise()` first (shuffling from the
current global RNG state), then `ValueNoise(seed=seed)` which reseeds the
global RNG.  Returns the generator state and the new global RNG state. -/
def worldgen_init (R : PyRandom) (chunk_size : ℕ) (seed : Option ℤ)
    (water_level : ℚ) (g : R.State) : WGen × R.State :=
  let p := perlin_init R g
  let v := value_noise_init R seed
  (⟨chunk_size, water_level, p.1, v.1⟩, v.2)

/-- Source `WorldGenerator.terrain_scales`. -/
def terrain_scales : List (ℚ × ℚ) :=
  [(30, 1), (100, 4/5), (50, 2/5), (25, 1/5), (10, 1/10)]

/-- One cell's contribution for one octave `(scale, weight)`: the two Perlin
frequencies blended 70/30, the rescaled value noise, combined
`(perlin*0.9 + value*0.1) * weight`. -/
def chunk_cell (R : PyRandom) (perm : List ℕ) (scale weight wx wy : ℚ)
    (vn : VGrid) (g : R.State) : ℚ × VGrid × R.State :=
  let pv := (noise perm (wx / scale) (wy / scale) 0 + 1) * (1/2) * (7/10)
      + (noise perm (wx / (scale * (3/10))) (wy / (scale * (3/10))) 0 + 1)
        * (1/2) * (3/10)
  let sv := smooth_noise R vn (wx / scale) (wy / scale) g
  let vv := (sv.1 + 1) * (1/2)
  ((pv * (9/10) + vv * (1/10)) * weight, sv.2.1, sv.2.2)

/-- State-threading map over a list, preserving the traversal order of the
source's `for` loops. -/
def stMap {α β σ : Type} (f : α → σ → β × σ) : List α → σ → List β × σ
  | [], s => ([], s)
  | a :: l, s =>
      let b := f a s
      let r := stMap f l b.2
      (b.1 :: r.1, r.2)

/-- The contribution grid of one octave, traversed `for y: for x:` exactly as
the source does (the traversal order fixes which lattice points consume which
RNG draws). -/
def scale_pass (R : PyRandom) (perm : List ℕ) (cs : ℕ) (xo yo : ℤ)
    (scale weight : ℚ) (vn : VGrid) (g : R.State) :
    Grid ℚ × VGrid × R.State :=
  stMap (fun y s =>
      stMap (fun x s2 =>
          chunk_cell R perm scale weight
            ((x : ℚ) + (xo : ℚ) * (cs : ℚ)) ((y : ℚ) + (yo : ℚ) * (cs : ℚ)) s2.1 s2.2)
        (List.range cs) s)
    (List.range cs) (vn, g)

/-- Cellwise addition of two grids (`height_map[y, x] += ...` per octave). -/
def addGrid (a b : Grid ℚ) : Grid ℚ :=
  List.zipWith (List.zipWith (· + ·)) a b

/-- The all-zero starting height map (`np.zeros`). -/
def zeroGrid (cs : ℕ) : Grid ℚ :=
  List.replicate cs (List.replicate cs 0)

/-- The accumulated, pre-shaping height field: the octave passes run in the
order of `terrain_scales`, threading the value-noise state through. -/
def accum_heights (R : PyRandom) (perm : List ℕ) (cs : ℕ) (xo yo : ℤ)
    (vn : VGrid) (g : R.State) : Grid ℚ × VGrid × R.State :=
  terrain_scales.foldl
    (fun acc sw =>
      let r := scale_pass R perm cs xo yo sw.1 sw.2 acc.2.1 acc.2.2
      (addGrid acc.1 r.1, r.2))
    (zeroGrid cs, vn, g)

/-- Source `height_map.min()` (no NaN can occur before shaping, so plain `min`). -/
def gridMin (hm : Grid ℚ) : ℚ :=
  match hm.flatten with
  | [] => 0
  | a :: l => l.foldl min a

/-- Source `height_map.max()`. -/
def gridMax (hm : Grid ℚ) : ℚ :=
  match hm.flatten with
  | [] => 0
  | a :: l => l.foldl max a

/-- The shaping pipeline applied to the accumulated field, in source order:
min-max normalize (elementwise float division), `np.power(·, 1.4)` (the
abstracted `pw`), `* 1.3 - 0.15`, `np.clip(·, 0, 1)`. -/
def shape_heights (pw : PyF → PyF) (hm : Grid ℚ) : Grid PyF :=
  let lo := gridMin hm
  let hi := gridMax hm
  hm.map (List.map (fun q =>
    pyClip (pySubC (pyMulC (pw (pyDiv (q - lo) (hi - lo))) (13/10)) (3/20)) 0 1))

/-- Source `water_mask = height_map < self.water_level` (elementwise; NaN compares
false). -/
def water_mask (wl : ℚ) (h : Grid PyF) : Grid Bool :=
  h.map (List.map (fun q => pyLtC q wl))

/-- One cell of `WorldGenerator._generate_biomes`: the five masked assignments
run in source order, each overwriting the previous value where its mask holds
(`0.08 = 2/25`, `0.65 = 13/20`, `0.85 = 17/20`). -/
def biome_cell (wl : ℚ) (h : PyF) (w : Bool) : ℕ :=
  let b0 : ℕ := 0
  let b1 := if w then 0 else b0
  let b2 := if !w && pyLtC h (wl + 2/25) then 1 else b1
  let b3 := if !w && pyGeC h (wl + 2/25) && pyLtC h (13/20) then 2 else b2
  let b4 := if !w && pyGeC h (13/20) && pyLtC h (17/20) then 3 else b3
  if !w && pyGeC h (17/20) then 4 else b4

/-- Source `WorldGenerator._generate_biomes` over the whole chunk. -/
def generate_biomes (wl : ℚ) (h : Grid PyF) (w : Grid Bool) : Grid ℕ :=
  List.zipWith (List.zipWith (biome_cell wl)) h w

/-- The chunk record returned by `WorldGenerator.generate_chunk`. -/
structure ChunkData where
  height : Grid PyF
  water : Grid Bool
  biome : Grid ℕ
deriving DecidableEq

/-- Source `WorldGenerator.generate_chunk`: accumulate the octaves, shape, derive the
water mask and biome map.  Returns the record together with the updated
generator and global RNG states. -/
def generate_chunk (R : PyRandom) (pw : PyF → PyF) (w : WGen) (xo yo : ℤ)
    (g : R.State) : ChunkData × WGen × R.State :=
  let a := accum_heights R w.perm w.chunk_size xo yo w.vgrid g
  let h := shape_heights pw a.1
  let wm := water_mask w.water_level h
  let b := generate_biomes w.water_level h wm
  (⟨h, wm, b⟩, { w with vgrid := a.2.1 }, a.2.2)

/-! ## ChunkManager (`src/map/chunk_manager.py`) -/

/-- One cell of `(chunk_data['height'] * 255).astype(np.uint8)`: multiply by
255, C-cast to `uint8` (truncate toward zero, wrap modulo 256). -/
def quantize_height (h : ℚ) : ℕ := (truncQ (h * 255) % 256).toNat

/-- One cell of the stored water grid: `bool` cast to `uint8`. -/
def quantize_water (w : Bool) : ℕ := if w then 1 else 0

/-- One cell of the stored biome grid: integer cast to `uint8` (wrap). -/
def quantize_biome (b : ℕ) : ℕ := b % 256

/-- The chunk record handed to `add_chunk` (working precision: float heights,
boolean water, integer biomes). -/
structure InChunk where
  height : Grid ℚ
  water : Grid Bool
  biome : Grid ℕ
deriving DecidableEq

/-- The lossy `optimized_chunk` stored in the cache: three `uint8` grids. -/
structure StoredChunk where
  height : Grid ℕ
  water : Grid ℕ
  biome : Grid ℕ
deriving DecidableEq

/-- The quantization performed at the top of `ChunkManager.add_chunk`. -/
def optimize (d : InChunk) : StoredChunk :=
  ⟨d.height.map (List.map quantize_height),
   d.water.map (List.map quantize_water),
   d.biome.map (List.map quantize_biome)⟩

/-- The record `ChunkManager.get_chunk` rebuilds: `uint8 / 255.0` heights,
`astype(bool)` water (nonzero ↦ true), biome returned as stored. -/
def deoptimize (s : StoredChunk) : InChunk :=
  ⟨s.height.map (List.map (fun (b : ℕ) => (b : ℚ) / 255)),
   s.water.map (List.map (fun (b : ℕ) => decide (b ≠ 0))),
   s.biome⟩

/-- The dict `self.chunks`: an `OrderedDict` as an association list, head = oldest. -/
abbrev Cache := List ((ℤ × ℤ) × StoredChunk)

/-- The keys of the cache in eviction order. -/
def cacheKeys (c : Cache) : List (ℤ × ℤ) := c.map Prod.fst

/-- First-match lookup (`self.chunks.get(coord)`). -/
def lookupC : Cache → (ℤ × ℤ) → Option StoredChunk
  | [], _ => none
  | (k, v) :: l, k2 => if k = k2 then some v else lookupC l k2

/-- Model of `OrderedDict.__setitem__`: an existing key keeps its position and gets the
new value; a new key is appended at the most-recent end. -/
def odAssign (k : ℤ × ℤ) (v : StoredChunk) : Cache → Cache
  | [] => [(k, v)]
  | (k2, v2) :: l => if k2 = k then (k, v) :: l else (k2, v2) :: odAssign k v l

/-- Model of `OrderedDict.move_to_end(k)` for a present key: remove it, re-append it at
the most-recent end with its stored value. -/
def odMoveToEnd (k : ℤ × ℤ) (c : Cache) : Cache :=
  match lookupC c k with
  | none => c
  | some v => (c.filter (fun kv => kv.1 ≠ k)) ++ [(k, v)]

/-- Source `ChunkManager.add_chunk`: quantize, then — if the cache already holds at
least `max_chunks` entries — `popitem(last=False)` (drop the oldest entry;
on an empty dict this raises `KeyError`, modelled as `none`), then insert.
The eviction fires before the insertion and regardless of whether the key is
already present. -/
def add_chunk (maxc : ℕ) (c : Cache) (k : ℤ × ℤ) (d : InChunk) : Option Cache :=
  let v := optimize d
  let c2 : Option Cache :=
    if maxc ≤ c.length then
      match c with
      | [] => none
      | _ :: t => some t
    else some c
  c2.map (odAssign k v)

/-- Source `ChunkManager.get_chunk`: `None` when absent; on a hit, move the entry to
the most-recent end, then return the dequantized record.  Returns the updated
cache together with the result. -/
def get_chunk (c : Cache) (k : ℤ × ℤ) : Cache × Option InChunk :=
  match lookupC c k with
  | none => (c, none)
  | some v => (odMoveToEnd k c, some (deoptimize v))

/-- Folding a sequence of `add_chunk` calls (`put`s with no intervening
reads). -/
def add_many (maxc : ℕ) (c : Cache) : List ((ℤ × ℤ) × InChunk) → Option Cache
  | [] => some c
  | (k, d) :: l => match add_chunk maxc c k d with
    | none => none
    | some c2 => add_many maxc c2 l

/-! ## A concrete instance of the global-RNG model

Used by witnesses and counterexamples.  The state is an index permutation
(consumed by `shuffle`) together with a stream of future `random()` outputs.
`shuffle l` rearranges `l` by the stored index map; for the index maps below
and `l = range 256` this is a genuine shuffle result, i.e. a permutation of
`range(256)`. -/

/-- Concrete global-RNG model instance. -/
def cRNG : PyRandom where
  State := (ℕ → ℕ) × (ℕ → ℚ)
  seed := fun _ => (id, fun _ => 0)
  shuffle := fun l st => ((List.range l.length).map (fun i => l.getD (st.1 i) 0), st)
  random := fun st => (st.2 0, (st.1, fun n => st.2 (n + 1)))

/-- A permutation of `[0,256)`: the 5-cycle `(1 16 48 32 17)`.  It makes all
four gradient hashes consulted at the origin cell congruent to `0 mod 16`. -/
def permFunA : ℕ → ℕ := fun i =>
  if i = 1 then 16 else if i = 16 then 48 else if i = 48 then 32
  else if i = 32 then 17 else if i = 17 then 1 else i

/-- A permutation of `[0,256)`: the cycles `(1 0 3 19 35)` and `(4 20 51)`.
It makes all four gradient hashes consulted at the origin cell congruent to
`3 mod 16`. -/
def permFunB : ℕ → ℕ := fun i =>
  if i = 1 then 0 else if i = 0 then 3 else if i = 3 then 19
  else if i = 19 then 35 else if i = 35 then 1 else if i = 4 then 20
  else if i = 20 then 51 else if i = 51 then 4 else i

/-- Entry `[y][x]` of a grid (`d` outside; used only within bounds). -/
def gridGet {α : Type} (d : α) (g : Grid α) (y x : ℕ) : α :=
  (g.getD y []).getD x d

/-- Initial global-RNG state of the first fresh run: `shuffle` will produce the
5-cycle table `permFunA`, `random()` would produce the zero stream. -/
def stateA : cRNG.State := (permFunA, fun _ => 0)

/-- Initial global-RNG state of the second fresh run, producing `permFunB`. -/
def stateB : cRNG.State := (permFunB, fun _ => 0)

/-- The chunk record of `WorldGenerator(chunk_size=2, seed=42, water_level=0.4)`
freshly constructed while the global RNG is in state `stateA`, then
`generate_chunk(0, 0)`.  `np.power(·, 1.4)` is instantiated with the identity,
which agrees with the true power at the cells the comparison pins down (the
chunk's min and max cells, whose normalized heights are exactly 0 and 1). -/
def chunkRunA : ChunkData :=
  (generate_chunk cRNG id (worldgen_init cRNG 2 (some 42) (2/5) stateA).1 0 0
    (worldgen_init cRNG 2 (some 42) (2/5) stateA).2).1

/-- As `chunkRunA`, but the construction-time global RNG state is `stateB`. -/
def chunkRunB : ChunkData :=
  (generate_chunk cRNG id (worldgen_init cRNG 2 (some 42) (2/5) stateB).1 0 0
    (worldgen_init cRNG 2 (some 42) (2/5) stateB).2).1

/-! ## C1 — two-run determinism of `generate_chunk(0, 0)` -/

/-- C1, counterexample.  Two `WorldGenerator`s freshly constructed with
identical `chunk_size=2`, `seed=42`, `water_level=0.4`, but from different
global-RNG states (as two fresh processes are), return different height,
water and biome grids from `generate_chunk(0, 0)`: the `PerlinNoise`
permutation table is shuffled from the pre-seed global state, so cell (0,0)
comes out as the chunk minimum (height 0) in one run and as the chunk maximum
(height 1) in the other. -/
theorem C1_counterexample :
    chunkRunA.height ≠ chunkRunB.height ∧
    chunkRunA.water ≠ chunkRunB.water ∧
    chunkRunA.biome ≠ chunkRunB.biome ∧
    gridGet PyF.nan chunkRunA.height 0 0 = PyF.fin 0 ∧
    gridGet PyF.nan chunkRunB.height 0 0 = PyF.fin 1 := by
  decide

/-- C1, amended.  If the two freshly constructed generators additionally start
from global-RNG states whose `shuffle` of `range(256)` coincides (equivalently,
obtain the same `PerlinNoise` permutation table), then `generate_chunk`
returns bit-identical height, water and biome grids; the seed alone only fixes
the value-noise contribution. -/
theorem C1_amended (R : PyRandom) (pw : PyF → PyF) (cs : ℕ) (s : Option ℤ)
    (wl : ℚ) (xo yo : ℤ) (g1 g2 : R.State)
    (hsh : (R.shuffle (List.range 256) g1).1 = (R.shuffle (List.range 256) g2).1) :
    (generate_chunk R pw (worldgen_init R cs s wl g1).1 xo yo
        (worldgen_init R cs s wl g1).2).1 =
      (generate_chunk R pw (worldgen_init R cs s wl g2).1 xo yo
        (worldgen_init R cs s wl g2).2).1 := by
  have h1 : (worldgen_init R cs s wl g1).1 = (worldgen_init R cs s wl g2).1 := by
    simp [worldgen_init, perlin_init, value_noise_init, hsh]
  have h2 : (worldgen_init R cs s wl g1).2 = (worldgen_init R cs s wl g2).2 := rfl
  rw [h1, h2]

/-- Witness for `C1_amended` at a concrete input. -/
theorem C1_amended_witness :
    (cRNG.shuffle (List.range 256) stateA).1 = (cRNG.shuffle (List.range 256) stateA).1 ∧
    (generate_chunk cRNG id (worldgen_init cRNG 2 (some 42) (2/5) stateA).1 0 0
        (worldgen_init cRNG 2 (some 42) (2/5) stateA).2).1 =
      (generate_chunk cRNG id (worldgen_init cRNG 2 (some 42) (2/5) stateA).1 0 0
        (worldgen_init cRNG 2 (some 42) (2/5) stateA).2).1 :=
  ⟨rfl, C1_amended cRNG id 2 (some 42) (2/5) 0 0 stateA stateA rfl⟩

/-! ## C9 — exact period 256 of the coherent-noise field -/

/-- C9.  Because the integer lattice coordinates are masked with `& 255`,
`PerlinNoise.noise` is exactly periodic with period 256 along each axis, for
every permutation table and every integer multiple shift. -/
theorem C9_noise_periodic (p : List ℕ) (x y z : ℚ) (k : ℤ) :
    noise p (x + 256 * (k : ℚ)) y z = noise p x y z ∧
    noise p x (y + 256 * (k : ℚ)) z = noise p x y z ∧
    noise p x y (z + 256 * (k : ℚ)) = noise p x y z := by
  have hfl : ∀ t : ℚ, ⌊t + 256 * (k : ℚ)⌋ = ⌊t⌋ + 256 * k := by
    intro t
    have : (256 : ℚ) * (k : ℚ) = ((256 * k : ℤ) : ℚ) := by push_cast; ring
    rw [this, Int.floor_add_int]
  have hmod : ∀ t : ℚ, ⌊t + 256 * (k : ℚ)⌋ % 256 = ⌊t⌋ % 256 := by
    intro t
    rw [hfl t, Int.add_mul_emod_self_left]
  have hfrac : ∀ t : ℚ, t + 256 * (k : ℚ) - ⌊t + 256 * (k : ℚ)⌋ = t - ⌊t⌋ := by
    intro t
    rw [hfl t]
    push_cast
    ring
  refine ⟨?_, ?_, ?_⟩ <;>
    simp only [noise, hmod, hfrac]

/-! ## C10 — the shuffle after a seeded construction is seed-determined -/

/-- C10.  `ValueNoise.__init__` reseeds the process-global RNG, so the
permutation table of a `PerlinNoise` built next (no intervening global-RNG
use) is a function of the seed alone: it equals the doubled shuffle of
`range(256)` from the reseeded state, and two `WorldGenerator`s constructed
right after a first `WorldGenerator(seed=s)` — from arbitrary, different
pre-states `g1`, `g2` and with arbitrary own parameters — get identical
permutation tables. -/
theorem C10_table_deterministic (R : PyRandom) (s : Option ℤ)
    (g1 g2 : R.State) (cs1 cs2 csA csB : ℕ) (sA sB : Option ℤ)
    (wl1 wl2 wlA wlB : ℚ) :
    (perlin_init R (value_noise_init R s).2).1 =
      (R.shuffle (List.range 256) (R.seed s)).1 ++
        (R.shuffle (List.range 256) (R.seed s)).1 ∧
    (worldgen_init R csA sA wlA (worldgen_init R cs1 s wl1 g1).2).1.perm =
      (worldgen_init R csB sB wlB (worldgen_init R cs2 s wl2 g2).2).1.perm :=
  ⟨rfl, rfl⟩

/-! ## Cache helper lemmas -/

/-- Assigning a key makes it found with the assigned value. -/
theorem lookupC_odAssign (k : ℤ × ℤ) (v : StoredChunk) :
    ∀ c : Cache, lookupC (odAssign k v c) k = some v := by
  intro c
  induction c with
  | nil => simp [odAssign, lookupC]
  | cons kv t ih =>
      obtain ⟨k2, v2⟩ := kv
      by_cases hk : k2 = k
      · subst hk
        simp [odAssign, lookupC]
      · simpa [odAssign, if_neg hk, lookupC] using ih

/-- Assigning an absent key appends it at the most-recent end. -/
theorem odAssign_not_mem (k : ℤ × ℤ) (v : StoredChunk) :
    ∀ c : Cache, k ∉ cacheKeys c → odAssign k v c = c ++ [(k, v)] := by
  intro c
  induction c with
  | nil => intro _; rfl
  | cons kv t ih =>
      intro hmem
      obtain ⟨k2, v2⟩ := kv
      simp only [cacheKeys, List.map_cons, List.mem_cons, not_or] at hmem
      have hne : ¬k2 = k := fun h => hmem.1 h.symm
      simp only [odAssign, if_neg hne, List.cons_append, List.cons.injEq, true_and]
      exact ih hmem.2

/-- Keys of a quantized put list. -/
theorem cacheKeys_map_opt (l : List ((ℤ × ℤ) × InChunk)) :
    cacheKeys (l.map (fun p => (p.1, optimize p.2))) = l.map Prod.fst := by
  simp [cacheKeys, List.map_map, Function.comp]

/-- A run of `capacity + 1 - c.length` fresh distinct puts starting at a cache
below capacity ends with exactly one eviction, of the overall oldest entry. -/
theorem add_many_one_evict (maxc : ℕ) (hmax : 1 ≤ maxc) :
    ∀ (l : List ((ℤ × ℤ) × InChunk)) (c : Cache), l ≠ [] →
      c.length + l.length = maxc + 1 →
      (cacheKeys c ++ l.map Prod.fst).Nodup →
      add_many maxc c l =
        some ((c ++ l.map (fun p => (p.1, optimize p.2))).tail) := by
  intro l
  induction l with
  | nil => intro c h; exact absurd rfl h
  | cons kd l2 ih =>
      intro c _ hlen hnd
      obtain ⟨k, d⟩ := kd
      have hkfresh : k ∉ cacheKeys c := by
        rw [List.nodup_append] at hnd
        exact fun hc => hnd.2.2 hc (by simp)
      cases l2 with
      | nil =>
          simp only [List.length_cons, List.length_nil] at hlen
          have hcl : c.length = maxc := by omega
          obtain ⟨kv0, t, rfl⟩ : ∃ kv0 t, c = kv0 :: t := by
            cases c with
            | nil => exact absurd hcl (by simp; omega)
            | cons a t => exact ⟨a, t, rfl⟩
          have hkt : k ∉ cacheKeys t := fun hk =>
            hkfresh (List.mem_cons_of_mem _ hk)
          have hstep : add_chunk maxc (kv0 :: t) k d = some (t ++ [(k, optimize d)]) := by
            simp only [add_chunk]
            rw [if_pos (le_of_eq hcl.symm)]
            simp [odAssign_not_mem k (optimize d) t hkt]
          simp [add_many, hstep]
      | cons kd2 l3 =>
          have hlen2 : c.length + (l3.length + 2) = maxc + 1 := by
            simpa using hlen
          have hlt : c.length < maxc := by omega
          have hstep : add_chunk maxc c k d = some (c ++ [(k, optimize d)]) := by
            simp only [add_chunk]
            rw [if_neg (by omega)]
            simp [odAssign_not_mem k (optimize d) c hkfresh]
          have hres := ih (c ++ [(k, optimize d)]) (by simp)
            (by simp only [List.length_append, List.length_cons, List.length_nil]; omega)
            (by
              have heq : cacheKeys (c ++ [(k, optimize d)]) ++ (kd2 :: l3).map Prod.fst =
                  cacheKeys c ++ ((k, d) :: kd2 :: l3).map Prod.fst := by
                simp [cacheKeys]
              rw [heq]
              exact hnd)
          have hgoal : add_many maxc c ((k, d) :: kd2 :: l3) =
              add_many maxc (c ++ [(k, optimize d)]) (kd2 :: l3) := by
            simp only [add_many, hstep]
          rw [hgoal, hres]
          simp

/-! ## C2 — evict-then-insert, eviction of the first-inserted coordinate -/

/-- C2.  With the cache at capacity, `add_chunk` drops the single oldest entry
before inserting — for every key, in particular one already present — and a
run of `capacity + 1` distinct fresh puts from an empty cache ends with
exactly `capacity` entries, the first-inserted, never-read coordinate being
the evicted one. -/
theorem C2_eviction (maxc : ℕ) (hmax : 1 ≤ maxc) (c : Cache) (k : ℤ × ℤ)
    (d : InChunk) (hfull : c.length = maxc) (k0 : ℤ × ℤ) (d0 : InChunk)
    (rest : List ((ℤ × ℤ) × InChunk)) (hlen : rest.length = maxc)
    (hnd : (k0 :: rest.map Prod.fst).Nodup) :
    add_chunk maxc c k d = some (odAssign k (optimize d) c.tail) ∧
    add_many maxc [] ((k0, d0) :: rest) =
      some (rest.map (fun p => (p.1, optimize p.2))) ∧
    (rest.map (fun p => (p.1, optimize p.2))).length = maxc ∧
    k0 ∉ cacheKeys (rest.map (fun p => (p.1, optimize p.2))) := by
  refine ⟨?_, ?_, by simpa using hlen, ?_⟩
  · simp only [add_chunk]
    rw [if_pos (le_of_eq hfull.symm)]
    cases c with
    | nil => exact absurd hfull.symm (by simpa using Nat.ne_of_gt hmax)
    | cons kv t => rfl
  · have := add_many_one_evict maxc hmax ((k0, d0) :: rest) [] (by simp)
      (by simpa using hlen) hnd
    simpa using this
  · rw [cacheKeys_map_opt]
    exact (List.nodup_cons.1 hnd).1

/-- A small concrete chunk record used by witnesses. -/
def smallChunk : InChunk := ⟨[[1/2]], [[true]], [[2]]⟩

/-- Witness for `C2_eviction` at a concrete input. -/
theorem C2_eviction_witness :
    1 ≤ 1 ∧ ([((0, 0), optimize smallChunk)] : Cache).length = 1 ∧
    ([((1, 0), smallChunk)].map Prod.fst).length = 1 ∧
    (((0, 0) : ℤ × ℤ) :: [((1, 0), smallChunk)].map Prod.fst).Nodup ∧
    (add_chunk 1 [((0, 0), optimize smallChunk)] (2, 2) smallChunk =
      some (odAssign (2, 2) (optimize smallChunk)
        ([((0, 0), optimize smallChunk)] : Cache).tail) ∧
    add_many 1 [] [((0, 0), smallChunk), ((1, 0), smallChunk)] =
      some ([((1, 0), smallChunk)].map (fun p => (p.1, optimize p.2))) ∧
    ([((1, 0), smallChunk)].map (fun p => (p.1, optimize p.2))).length = 1 ∧
    (0, 0) ∉ cacheKeys ([((1, 0), smallChunk)].map (fun p => (p.1, optimize p.2)))) :=
  ⟨Nat.le_refl 1, by decide, by decide, by decide,
    C2_eviction 1 (Nat.le_refl 1) [((0, 0), optimize smallChunk)] (2, 2)
      smallChunk (by decide) (0, 0) smallChunk [((1, 0), smallChunk)]
      (by decide) (by decide)⟩

/-! ## C3 — the stored height byte truncates and wraps -/

/-- For in-range heights the stored byte is the floor of `h * 255` (truncation
toward zero coincides with floor on nonnegative values, and no wrap occurs). -/
theorem quantize_height_floor (h : ℚ) (h0 : 0 ≤ h) (h1 : h ≤ 1) :
    (quantize_height h : ℤ) = ⌊h * 255⌋ := by
  have hnn : (0 : ℚ) ≤ h * 255 := by positivity
  have hfl0 : 0 ≤ ⌊h * 255⌋ := Int.floor_nonneg.2 hnn
  have hub : ⌊h * 255⌋ < 256 := by
    have hle : h * 255 ≤ 255 := by nlinarith
    have h2 : (⌊h * 255⌋ : ℚ) < 256 :=
      lt_of_le_of_lt (le_trans (Int.floor_le _) hle) (by norm_num)
    exact_mod_cast h2
  unfold quantize_height truncQ
  rw [if_pos hnn, Int.emod_eq_of_lt hfl0 hub]
  exact Int.toNat_of_nonneg hfl0

/-- C3, counterexample.  The stored byte for height `0.5` is 127, not
`round(0.5*255) = 128`; and out-of-range heights wrap rather than clamp:
`-0.1` stores 231 (not 0) and `1.1` stores 24 (not 255). -/
theorem C3_counterexample :
    quantize_height (1/2) = 127 ∧ round ((1/2 : ℚ) * 255) = 128 ∧
    (127 : ℕ) ≠ 128 ∧
    quantize_height (-1/10) = 231 ∧ (231 : ℕ) ≠ 0 ∧
    quantize_height (11/10) = 24 ∧ (24 : ℕ) ≠ 255 := by
  refine ⟨by decide, ?_, by decide, by decide, by decide, by decide, by decide⟩
  norm_num [round_eq]

/-- C3, amended.  `add_chunk` stores, under the put key, the record whose
height bytes are `trunc(h*255) mod 256`: for `h` in `[0,1]` this is
`⌊h*255⌋` — truncation, not rounding — and out-of-range heights wrap modulo
256 (no clamping), as the counterexample values show. -/
theorem C3_truncate_wrap (maxc : ℕ) (c c2 : Cache) (k : ℤ × ℤ) (d : InChunk)
    (hadd : add_chunk maxc c k d = some c2) (h : ℚ) (h0 : 0 ≤ h) (h1 : h ≤ 1) :
    lookupC c2 k = some (optimize d) ∧
    (optimize d).height = d.height.map (List.map quantize_height) ∧
    (quantize_height h : ℤ) = ⌊h * 255⌋ ∧
    quantize_height h < 256 := by
  refine ⟨?_, rfl, quantize_height_floor h h0 h1, ?_⟩
  · obtain ⟨c3, _, rfl⟩ := Option.map_eq_some'.1 hadd
    exact lookupC_odAssign k (optimize d) c3
  · unfold quantize_height
    have : truncQ (h * 255) % 256 < 256 := Int.emod_lt_of_pos _ (by norm_num)
    omega

/-- Witness for `C3_truncate_wrap` at a concrete input. -/
theorem C3_truncate_wrap_witness :
    add_chunk 2 [] (0, 0) smallChunk = some [((0, 0), optimize smallChunk)] ∧
    (0 : ℚ) ≤ 1/2 ∧ (1/2 : ℚ) ≤ 1 ∧
    (lookupC [((0, 0), optimize smallChunk)] (0, 0) = some (optimize smallChunk) ∧
    (optimize smallChunk).height = smallChunk.height.map (List.map quantize_height) ∧
    (quantize_height (1/2) : ℤ) = ⌊(1/2 : ℚ) * 255⌋ ∧
    quantize_height (1/2) < 256) :=
  ⟨by decide, by norm_num, by norm_num,
    C3_truncate_wrap 2 [] [((0, 0), optimize smallChunk)] (0, 0) smallChunk
      (by decide) (1/2) (by norm_num) (by norm_num)⟩

/-! ## C4 — quantization round trip -/

/-- Relation `Forall₂` between a list and its image under a map. -/
theorem forall2_map_self {α β : Type} (f : α → β) (R : α → β → Prop)
    (l : List α) (h : ∀ a ∈ l, R a (f a)) : List.Forall₂ R l (l.map f) := by
  induction l with
  | nil => exact List.Forall₂.nil
  | cons a t ih =>
      exact List.Forall₂.cons (h a (by simp)) (ih fun b hb => h b (by simp [hb]))

/-- Dequantizing the stored height byte is within `1/255` of an in-range
input. -/
theorem dequant_quant_close (h : ℚ) (h0 : 0 ≤ h) (h1 : h ≤ 1) :
    |(quantize_height h : ℚ) / 255 - h| ≤ 1/255 := by
  have hq : (quantize_height h : ℤ) = ⌊h * 255⌋ := quantize_height_floor h h0 h1
  have hqq : (quantize_height h : ℚ) = (⌊h * 255⌋ : ℚ) := by exact_mod_cast hq
  rw [hqq, abs_le]
  have hle : (⌊h * 255⌋ : ℚ) ≤ h * 255 := Int.floor_le _
  have hgt : h * 255 < ⌊h * 255⌋ + 1 := Int.lt_floor_add_one _
  constructor <;> linarith

/-- C4.  After a put, reading the same key back dequantizes the stored record:
each height cell that was in `[0,1]` comes back within `1/255` of its original
value, the water grid returns exactly, and the biome grid returns exactly
whenever its values fit in a byte (as generated biomes, in `{0..4}`, do). -/
theorem C4_roundtrip (maxc : ℕ) (c c2 : Cache) (k : ℤ × ℤ) (d : InChunk)
    (hadd : add_chunk maxc c k d = some c2) :
    (get_chunk c2 k).2 = some (deoptimize (optimize d)) ∧
    List.Forall₂ (List.Forall₂ (fun h h2 => 0 ≤ h → h ≤ 1 → |h2 - h| ≤ 1/255))
      d.height (deoptimize (optimize d)).height ∧
    (deoptimize (optimize d)).water = d.water ∧
    ((∀ row ∈ d.biome, ∀ v ∈ row, v < 256) →
      (deoptimize (optimize d)).biome = d.biome) := by
  refine ⟨?_, ?_, ?_, ?_⟩
  · obtain ⟨c3, _, rfl⟩ := Option.map_eq_some'.1 hadd
    simp [get_chunk, lookupC_odAssign k (optimize d) c3]
  · have hmap : (deoptimize (optimize d)).height =
        d.height.map (List.map (fun h => (quantize_height h : ℚ) / 255)) := by
      simp [deoptimize, optimize, List.map_map, Function.comp_def]
    rw [hmap]
    refine forall2_map_self _ _ _ (fun row _ => ?_)
    exact forall2_map_self _ _ _ (fun a _ => fun h0 h1 => dequant_quant_close a h0 h1)
  · have hcell : ∀ b : Bool, decide (quantize_water b ≠ 0) = b := by decide
    simp only [deoptimize, optimize, List.map_map]
    have hrow : ∀ row ∈ d.water,
        (List.map (fun (b : ℕ) => decide (b ≠ 0)) ∘ List.map quantize_water) row = row := by
      intro row _
      simp only [Function.comp_apply, List.map_map]
      have : (fun (b : ℕ) => decide (b ≠ 0)) ∘ quantize_water = id := by
        funext b
        exact hcell b
      rw [this, List.map_id]
    calc d.water.map (List.map (fun (b : ℕ) => decide (b ≠ 0)) ∘ List.map quantize_water)
        = d.water.map id := List.map_congr_left (fun row hr => (hrow row hr).trans rfl)
      _ = d.water := List.map_id _
  · intro hlt
    simp only [deoptimize, optimize]
    have hrow : ∀ row ∈ d.biome, List.map quantize_biome row = row := by
      intro row hr
      have : List.map quantize_biome row = List.map id row :=
        List.map_congr_left (fun v hv => Nat.mod_eq_of_lt (hlt row hr v hv))
      simpa using this
    calc d.biome.map (List.map quantize_biome)
        = d.biome.map id := List.map_congr_left (fun row hr => (hrow row hr).trans rfl)
      _ = d.biome := List.map_id _

/-- Witness for `C4_roundtrip` at a concrete input. -/
theorem C4_roundtrip_witness :
    add_chunk 2 [] (0, 0) smallChunk = some [((0, 0), optimize smallChunk)] ∧
    ((get_chunk [((0, 0), optimize smallChunk)] (0, 0)).2 =
      some (deoptimize (optimize smallChunk)) ∧
    List.Forall₂ (List.Forall₂ (fun h h2 => 0 ≤ h → h ≤ 1 → |h2 - h| ≤ 1/255))
      smallChunk.height (deoptimize (optimize smallChunk)).height ∧
    (deoptimize (optimize smallChunk)).water = smallChunk.water ∧
    ((∀ row ∈ smallChunk.biome, ∀ v ∈ row, v < 256) →
      (deoptimize (optimize smallChunk)).biome = smallChunk.biome)) :=
  ⟨by decide,
    C4_roundtrip 2 [] [((0, 0), optimize smallChunk)] (0, 0) smallChunk (by decide)⟩

/-! ## C7 — `get` promotes to most-recently-used -/

/-- C7.  With capacity 2: put `a`, put `b`, read `a` (which moves `a` to the
most-recent end and returns the dequantized record), put `c` — the cache then
holds exactly `a` and `c`; `b`, not `a`, was evicted. -/
theorem C7_recency_promotion (a b c : ℤ × ℤ) (da db dc : InChunk)
    (hab : a ≠ b) (hac : a ≠ c) (hbc : b ≠ c) :
    add_many 2 [] [(a, da), (b, db)] = some [(a, optimize da), (b, optimize db)] ∧
    get_chunk [(a, optimize da), (b, optimize db)] a =
      ([(b, optimize db), (a, optimize da)], some (deoptimize (optimize da))) ∧
    add_chunk 2 [(b, optimize db), (a, optimize da)] c dc =
      some [(a, optimize da), (c, optimize dc)] ∧
    cacheKeys [(a, optimize da), (c, optimize dc)] = [a, c] := by
  refine ⟨?_, ?_, ?_, by simp [cacheKeys]⟩
  · simp [add_many, add_chunk, odAssign, hab]
  · simp [get_chunk, lookupC, odMoveToEnd, Ne.symm hab]
  · simp [add_chunk, odAssign, hac]

/-- Witness for `C7_recency_promotion` at a concrete input. -/
theorem C7_recency_promotion_witness :
    ((0, 0) : ℤ × ℤ) ≠ (1, 0) ∧ ((0, 0) : ℤ × ℤ) ≠ (0, 1) ∧
    ((1, 0) : ℤ × ℤ) ≠ (0, 1) ∧
    (add_many 2 [] [((0, 0), smallChunk), ((1, 0), smallChunk)] =
      some [((0, 0), optimize smallChunk), ((1, 0), optimize smallChunk)] ∧
    get_chunk [((0, 0), optimize smallChunk), ((1, 0), optimize smallChunk)] (0, 0) =
      ([((1, 0), optimize smallChunk), ((0, 0), optimize smallChunk)],
        some (deoptimize (optimize smallChunk))) ∧
    add_chunk 2 [((1, 0), optimize smallChunk), ((0, 0), optimize smallChunk)]
        (0, 1) smallChunk =
      some [((0, 0), optimize smallChunk), ((0, 1), optimize smallChunk)] ∧
    cacheKeys [((0, 0), optimize smallChunk), ((0, 1), optimize smallChunk)] =
      [(0, 0), (0, 1)]) :=
  ⟨by decide, by decide, by decide,
    C7_recency_promotion (0, 0) (1, 0) (0, 1) smallChunk smallChunk smallChunk
      (by decide) (by decide) (by decide)⟩

/-! ## C5 — a uniform pre-shaping field propagates NaN -/

/-- Folding `min` over a constant list stays at the constant. -/
theorem foldl_min_const (q : ℚ) : ∀ l : List ℚ, (∀ a ∈ l, a = q) →
    l.foldl min q = q := by
  intro l
  induction l with
  | nil => intro _; rfl
  | cons a t ih =>
      intro h
      have ha : a = q := h a (by simp)
      simp only [List.foldl, ha, min_self]
      exact ih fun b hb => h b (by simp [hb])

/-- Folding `max` over a constant list stays at the constant. -/
theorem foldl_max_const (q : ℚ) : ∀ l : List ℚ, (∀ a ∈ l, a = q) →
    l.foldl max q = q := by
  intro l
  induction l with
  | nil => intro _; rfl
  | cons a t ih =>
      intro h
      have ha : a = q := h a (by simp)
      simp only [List.foldl, ha, max_self]
      exact ih fun b hb => h b (by simp [hb])

/-- The chunk minimum of a uniform, nonempty grid is the uniform value. -/
theorem gridMin_uniform (hm : Grid ℚ) (q : ℚ)
    (h : ∀ row ∈ hm, ∀ a ∈ row, a = q) (hne : hm.flatten ≠ []) :
    gridMin hm = q := by
  have hall : ∀ a ∈ hm.flatten, a = q := by
    intro a ha
    rw [List.mem_flatten] at ha
    obtain ⟨row, hr, haq⟩ := ha
    exact h row hr a haq
  unfold gridMin
  cases hfl : hm.flatten with
  | nil => exact absurd hfl hne
  | cons a l =>
      have ha : a = q := hall a (by rw [hfl]; simp)
      subst ha
      exact foldl_min_const a l (fun b hb => hall b (by rw [hfl]; simp [hb]))

/-- The chunk maximum of a uniform, nonempty grid is the uniform value. -/
theorem gridMax_uniform (hm : Grid ℚ) (q : ℚ)
    (h : ∀ row ∈ hm, ∀ a ∈ row, a = q) (hne : hm.flatten ≠ []) :
    gridMax hm = q := by
  have hall : ∀ a ∈ hm.flatten, a = q := by
    intro a ha
    rw [List.mem_flatten] at ha
    obtain ⟨row, hr, haq⟩ := ha
    exact h row hr a haq
  unfold gridMax
  cases hfl : hm.flatten with
  | nil => exact absurd hfl hne
  | cons a l =>
      have ha : a = q := hall a (by rw [hfl]; simp)
      subst ha
      exact foldl_max_const a l (fun b hb => hall b (by rw [hfl]; simp [hb]))

/-- C5.  When the accumulated pre-shaping height field of a chunk is perfectly
uniform, the per-chunk min-max normalization divides zero by zero and every
height cell of `generate_chunk` comes out NaN — there is no guard producing a
defined all-zero (or all-0.5) field.  (With `chunk_size = 1` the field is
always uniform, so this is reachable.) -/
theorem C5_uniform_nan (R : PyRandom) (pw : PyF → PyF) (wg : WGen) (xo yo : ℤ)
    (g : R.State) (q : ℚ) (hpw : pw PyF.nan = PyF.nan)
    (huni : ∀ row ∈ (accum_heights R wg.perm wg.chunk_size xo yo wg.vgrid g).1,
      ∀ a ∈ row, a = q) :
    ∀ row ∈ (generate_chunk R pw wg xo yo g).1.height, ∀ a ∈ row, a = PyF.nan := by
  intro row hrow a ha
  have hrow2 : row ∈ shape_heights pw
      (accum_heights R wg.perm wg.chunk_size xo yo wg.vgrid g).1 := hrow
  rw [shape_heights, List.mem_map] at hrow2
  obtain ⟨r0, hr0, rfl⟩ := hrow2
  rw [List.mem_map] at ha
  obtain ⟨a0, ha0, rfl⟩ := ha
  have hne : (accum_heights R wg.perm wg.chunk_size xo yo wg.vgrid g).1.flatten ≠ [] := by
    intro hempty
    have : a0 ∈ (accum_heights R wg.perm wg.chunk_size xo yo wg.vgrid g).1.flatten :=
      List.mem_flatten.2 ⟨r0, hr0, ha0⟩
    rw [hempty] at this
    exact List.not_mem_nil a0 this
  have hmin := gridMin_uniform _ q huni hne
  have hmax := gridMax_uniform _ q huni hne
  have ha0q : a0 = q := huni r0 hr0 a0 ha0
  rw [hmin, hmax, ha0q, sub_self]
  have hdiv : pyDiv 0 0 = PyF.nan := by simp [pyDiv]
  rw [hdiv, hpw]
  rfl

/-- Witness for `C5_uniform_nan` at a concrete input (`chunk_size = 1`). -/
theorem C5_uniform_nan_witness :
    id PyF.nan = PyF.nan ∧
    (∀ row ∈ (accum_heights cRNG (worldgen_init cRNG 1 (some 0) (2/5) stateA).1.perm
        (worldgen_init cRNG 1 (some 0) (2/5) stateA).1.chunk_size 0 0
        (worldgen_init cRNG 1 (some 0) (2/5) stateA).1.vgrid
        (worldgen_init cRNG 1 (some 0) (2/5) stateA).2).1, ∀ a ∈ row, a = 5/4) ∧
    (∀ row ∈ (generate_chunk cRNG id (worldgen_init cRNG 1 (some 0) (2/5) stateA).1
        0 0 (worldgen_init cRNG 1 (some 0) (2/5) stateA).2).1.height,
      ∀ a ∈ row, a = PyF.nan) :=
  ⟨rfl, by decide,
    C5_uniform_nan cRNG id (worldgen_init cRNG 1 (some 0) (2/5) stateA).1 0 0
      (worldgen_init cRNG 1 (some 0) (2/5) stateA).2 (5/4) rfl (by decide)⟩

/-! ## C6 — biome classification priority order -/

/-- The classification the claim states for a cell: the FIRST matching rule of
the priority order, water first (mask `h < wl`), then the four height bands. -/
def biome_first_match (wl h : ℚ) : ℕ :=
  if h < wl then 0
  else if h < wl + 2/25 then 1
  else if wl + 2/25 ≤ h ∧ h < 13/20 then 2
  else if 13/20 ≤ h ∧ h < 17/20 then 3
  else if 17/20 ≤ h then 4
  else 0

/-- The classification the code's sequence of masked assignments implements on
a finite non-NaN height: the LAST matching rule wins. -/
def biome_last_match (wl h : ℚ) : ℕ :=
  if h < wl then 0
  else if 17/20 ≤ h then 4
  else if 13/20 ≤ h then 3
  else if wl + 2/25 ≤ h then 2
  else 1

/-- C6, counterexample.  With `water_level = 0.6 ∈ [0,1]` and height `0.66`,
the code's biome map yields Forest (3) — the last matching rule — while the
claim's first-match priority order yields Beach (1), because
`0.66 < 0.6 + 0.08` matches Beach first. -/
theorem C6_counterexample :
    (0 : ℚ) ≤ 3/5 ∧ (3/5 : ℚ) ≤ 1 ∧
    generate_biomes (3/5) [[PyF.fin (33/50)]]
      (water_mask (3/5) [[PyF.fin (33/50)]]) = [[3]] ∧
    biome_first_match (3/5) (33/50) = 1 ∧ (3 : ℕ) ≠ 1 := by
  decide

/-- One finite cell of the code's biome pass equals the last-match
classification. -/
theorem biome_cell_fin (wl q : ℚ) :
    biome_cell wl (PyF.fin q) (pyLtC (PyF.fin q) wl) = biome_last_match wl q := by
  by_cases h0 : q < wl
  · simp [biome_cell, biome_last_match, pyLtC, pyGeC, h0]
  · by_cases h4 : 17/20 ≤ q
    · simp [biome_cell, biome_last_match, pyLtC, pyGeC, h0, h4]
    · by_cases h3 : 13/20 ≤ q
      · simp [biome_cell, biome_last_match, pyLtC, pyGeC, h0, h4, h3, not_le.1 h4]
      · by_cases h2 : wl + 2/25 ≤ q
        · simp [biome_cell, biome_last_match, pyLtC, pyGeC, h0, h4, h3, h2,
            not_le.1 h3]
        · simp [biome_cell, biome_last_match, pyLtC, pyGeC, h0, h4, h3, h2,
            not_le.1 h2]

/-- One row of the code's biome pass on finite heights. -/
theorem biomes_row_fin (wl : ℚ) (row : List ℚ) :
    List.zipWith (biome_cell wl) (row.map PyF.fin)
        ((row.map PyF.fin).map (fun q => pyLtC q wl)) =
      row.map (biome_last_match wl) := by
  induction row with
  | nil => rfl
  | cons a t ih =>
      simp only [List.map_cons, List.zipWith_cons_cons]
      rw [biome_cell_fin, ih]

/-- The code's biome map over a finite height grid, with the water mask the
generator derives (`height < water_level`), is the cellwise last-match
classification. -/
theorem biomes_grid_fin (wl : ℚ) (hq : Grid ℚ) :
    generate_biomes wl (hq.map (List.map PyF.fin))
        (water_mask wl (hq.map (List.map PyF.fin))) =
      hq.map (List.map (biome_last_match wl)) := by
  unfold generate_biomes water_mask
  induction hq with
  | nil => rfl
  | cons row t ih =>
      simp only [List.map_cons, List.zipWith_cons_cons, List.cons.injEq]
      exact ⟨biomes_row_fin wl row, ih⟩

/-- Every last-match biome value is one of `{0,1,2,3,4}`. -/
theorem biome_last_match_le (wl q : ℚ) : biome_last_match wl q ≤ 4 := by
  unfold biome_last_match
  split_ifs <;> norm_num

/-- When `water_level + 0.08 ≤ 0.65` the height bands are mutually exclusive,
so last-match and first-match classification agree. -/
theorem biome_match_agree (wl q : ℚ) (hwl : wl + 2/25 ≤ 13/20) :
    biome_last_match wl q = biome_first_match wl q := by
  unfold biome_last_match biome_first_match
  by_cases h0 : q < wl
  · simp [h0]
  · by_cases h1 : q < wl + 2/25
    · have hq2 : ¬ wl + 2/25 ≤ q := not_le.2 h1
      have hq3 : ¬ 13/20 ≤ q := by push_neg; linarith
      have hq4 : ¬ 17/20 ≤ q := by push_neg; linarith
      simp [h0, h1, hq2, hq3, hq4]
    · by_cases h3 : q < 13/20
      · have hq2 : wl + 2/25 ≤ q := not_lt.1 h1
        have hq3 : ¬ 13/20 ≤ q := not_le.2 h3
        have hq4 : ¬ 17/20 ≤ q := by push_neg; linarith
        simp [h0, h1, hq2, hq3, hq4, h3]
      · by_cases h4 : q < 17/20
        · have hq3 : 13/20 ≤ q := not_lt.1 h3
          have hq4 : ¬ 17/20 ≤ q := not_le.2 h4
          simp [h0, h1, h3, h4, hq3, hq4]
        · have hq4 : 17/20 ≤ q := not_lt.1 h4
          simp [h0, h1, h3, h4, hq4]

/-- C6, amended.  Over any finite height grid with the generator's water mask
(`height < water_level`): the biome map is exactly the cellwise LAST-match
classification of the stated priority rules (so water cells are always Ocean
and values stay in `{0..4}`), and whenever `water_level + 0.08 ≤ 0.65` — in
particular for the default `water_level = 0.4` — the stated first-match
priority order holds as claimed. -/
theorem C6_biomes (wl : ℚ) (hq : Grid ℚ) :
    generate_biomes wl (hq.map (List.map PyF.fin))
        (water_mask wl (hq.map (List.map PyF.fin))) =
      hq.map (List.map (biome_last_match wl)) ∧
    (∀ row ∈ generate_biomes wl (hq.map (List.map PyF.fin))
        (water_mask wl (hq.map (List.map PyF.fin))), ∀ v ∈ row, v ≤ 4) ∧
    (wl + 2/25 ≤ 13/20 →
      generate_biomes wl (hq.map (List.map PyF.fin))
          (water_mask wl (hq.map (List.map PyF.fin))) =
        hq.map (List.map (biome_first_match wl))) := by
  refine ⟨biomes_grid_fin wl hq, ?_, ?_⟩
  · rw [biomes_grid_fin wl hq]
    intro row hrow v hv
    rw [List.mem_map] at hrow
    obtain ⟨r0, _, rfl⟩ := hrow
    rw [List.mem_map] at hv
    obtain ⟨q, _, rfl⟩ := hv
    exact biome_last_match_le wl q
  · intro hwl
    rw [biomes_grid_fin wl hq]
    exact List.map_congr_left fun row _ =>
      List.map_congr_left fun q _ => biome_match_agree wl q hwl

/-- Witness for `C6_biomes` at a concrete input. -/
theorem C6_biomes_witness :
    (2/5 : ℚ) + 2/25 ≤ 13/20 ∧
    (generate_biomes (2/5) ([[1/2]].map (List.map PyF.fin))
        (water_mask (2/5) ([[1/2]].map (List.map PyF.fin))) =
      [[(1/2 : ℚ)]].map (List.map (biome_last_match (2/5))) ∧
    (∀ row ∈ generate_biomes (2/5) ([[1/2]].map (List.map PyF.fin))
        (water_mask (2/5) ([[1/2]].map (List.map PyF.fin))), ∀ v ∈ row, v ≤ 4) ∧
    ((2/5 : ℚ) + 2/25 ≤ 13/20 →
      generate_biomes (2/5) ([[1/2]].map (List.map PyF.fin))
          (water_mask (2/5) ([[1/2]].map (List.map PyF.fin))) =
        [[(1/2 : ℚ)]].map (List.map (biome_first_match (2/5))))) :=
  ⟨by norm_num, C6_biomes (2/5) [[1/2]]⟩

/-! ## C8 — `smooth_noise` is the fixed-weight lattice average, in `[0,1)` -/

/-- The lattice value stored in a grid (default 0; every key consulted below
is present). -/
def gridValD (vn : VGrid) (k : ℤ × ℤ) : ℚ := (lookupG vn k).getD 0

/-- A found key is a member of the association list. -/
theorem lookupG_mem (vn : VGrid) (k : ℤ × ℤ) (v : ℚ)
    (h : lookupG vn k = some v) : (k, v) ∈ vn := by
  induction vn with
  | nil => simp [lookupG] at h
  | cons kv t ih =>
      obtain ⟨k2, v2⟩ := kv
      by_cases hk : k2 = k
      · subst hk
        have h2 : v2 = v := by simpa [lookupG] using h
        subst h2
        exact List.mem_cons_self _ _
      · simp only [lookupG, if_neg hk] at h
        exact List.mem_cons_of_mem _ (ih h)

/-- Appending a fresh entry makes its key found. -/
theorem lookupG_append_self (vn : VGrid) (k : ℤ × ℤ) (v : ℚ)
    (h : lookupG vn k = none) : lookupG (vn ++ [(k, v)]) k = some v := by
  induction vn with
  | nil => simp [lookupG]
  | cons kv t ih =>
      obtain ⟨k2, v2⟩ := kv
      by_cases hk : k2 = k
      · rw [lookupG, if_pos hk] at h
        exact absurd h (by simp)
      · rw [lookupG, if_neg hk] at h
        rw [List.cons_append, lookupG, if_neg hk]
        exact ih h

/-- Appending an entry preserves earlier lookups. -/
theorem lookupG_append_mono (vn : VGrid) (k knew : ℤ × ℤ) (v vnew : ℚ)
    (h : lookupG vn k = some v) : lookupG (vn ++ [(knew, vnew)]) k = some v := by
  induction vn with
  | nil => simp [lookupG] at h
  | cons kv t ih =>
      obtain ⟨k3, v3⟩ := kv
      by_cases hk : k3 = k
      · rw [lookupG, if_pos hk] at h
        rw [List.cons_append, lookupG, if_pos hk]
        exact h
      · rw [lookupG, if_neg hk] at h
        rw [List.cons_append, lookupG, if_neg hk]
        exact ih h

/-- The value `get_value` returns is found in the resulting grid under the
truncated key. -/
theorem get_value_found (R : PyRandom) (vn : VGrid) (x y : ℚ) (g : R.State) :
    lookupG (get_value R vn x y g).2.1 (truncQ x, truncQ y) =
      some (get_value R vn x y g).1 := by
  unfold get_value
  cases hl : lookupG vn (truncQ x, truncQ y) with
  | some v => simp [hl]
  | none => simpa [hl] using lookupG_append_self vn _ _ hl

/-- Lemma: `get_value` preserves earlier lookups. -/
theorem get_value_mono (R : PyRandom) (vn : VGrid) (x y : ℚ) (g : R.State)
    (k : ℤ × ℤ) (v : ℚ) (h : lookupG vn k = some v) :
    lookupG (get_value R vn x y g).2.1 k = some v := by
  unfold get_value
  cases hl : lookupG vn (truncQ x, truncQ y) with
  | some w => simpa [hl] using h
  | none => simpa [hl] using lookupG_append_mono vn k _ v _ h

/-- Lemma: `get_value` returns a value in `[0,1)` and preserves the grid-wide bound,
provided the RNG stream stays in `[0,1)` (as `random.random()` does). -/
theorem get_value_bound (R : PyRandom)
    (hR : ∀ g2 : R.State, 0 ≤ (R.random g2).1 ∧ (R.random g2).1 < 1)
    (vn : VGrid) (hvn : ∀ kv ∈ vn, 0 ≤ kv.2 ∧ kv.2 < 1) (x y : ℚ) (g : R.State) :
    (0 ≤ (get_value R vn x y g).1 ∧ (get_value R vn x y g).1 < 1) ∧
    (∀ kv ∈ (get_value R vn x y g).2.1, 0 ≤ kv.2 ∧ kv.2 < 1) := by
  unfold get_value
  cases hl : lookupG vn (truncQ x, truncQ y) with
  | some v =>
      refine ⟨?_, by simpa [hl] using hvn⟩
      have hm := lookupG_mem vn _ v hl
      simpa [hl] using hvn _ hm
  | none =>
      refine ⟨by simpa [hl] using hR g, ?_⟩
      intro kv hkv
      simp only [hl] at hkv
      rcases List.mem_append.1 hkv with hold | hnew
      · exact hvn kv hold
      · have : kv = ((truncQ x, truncQ y), (R.random g).1) := by simpa using hnew
        rw [this]
        exact hR g

/-- Truncation of an integer cast is the integer itself. -/
theorem truncQ_intCast (n : ℤ) : truncQ (n : ℚ) = n := by
  unfold truncQ
  split_ifs
  · exact Int.floor_intCast n
  · exact Int.ceil_intCast n

set_option maxHeartbeats 2000000

/-- C8.  `smooth_noise(x, y)` equals the fixed-weight lattice average of its
final memo grid: the four floor/ceil diagonal corners summed and divided by
16, the four sides (floor/ceil on one axis, the truncated raw coordinate on
the other) summed and divided by 8, plus the value at the truncated `(x, y)`
divided by 4; and since every lattice value lies in `[0,1)`, the result lies
in `[0,1)`. -/
theorem C8_smooth_noise (R : PyRandom)
    (hR : ∀ g2 : R.State, 0 ≤ (R.random g2).1 ∧ (R.random g2).1 < 1)
    (vn : VGrid) (hvn : ∀ kv ∈ vn, 0 ≤ kv.2 ∧ kv.2 < 1)
    (x y : ℚ) (g : R.State) :
    (smooth_noise R vn x y g).1 =
      (gridValD (smooth_noise R vn x y g).2.1 (⌊x⌋, ⌊y⌋) +
       gridValD (smooth_noise R vn x y g).2.1 (⌊x⌋, ⌈y⌉) +
       gridValD (smooth_noise R vn x y g).2.1 (⌈x⌉, ⌊y⌋) +
       gridValD (smooth_noise R vn x y g).2.1 (⌈x⌉, ⌈y⌉)) / 16 +
      (gridValD (smooth_noise R vn x y g).2.1 (⌊x⌋, truncQ y) +
       gridValD (smooth_noise R vn x y g).2.1 (truncQ x, ⌊y⌋) +
       gridValD (smooth_noise R vn x y g).2.1 (⌈x⌉, truncQ y) +
       gridValD (smooth_noise R vn x y g).2.1 (truncQ x, ⌈y⌉)) / 8 +
      gridValD (smooth_noise R vn x y g).2.1 (truncQ x, truncQ y) / 4 ∧
    0 ≤ (smooth_noise R vn x y g).1 ∧ (smooth_noise R vn x y g).1 < 1 := by
  set p1 := get_value R vn ((⌊x⌋ : ℤ) : ℚ) ((⌊y⌋ : ℤ) : ℚ) g with hp1
  set p2 := get_value R p1.2.1 ((⌊x⌋ : ℤ) : ℚ) ((⌈y⌉ : ℤ) : ℚ) p1.2.2 with hp2
  set p3 := get_value R p2.2.1 ((⌈x⌉ : ℤ) : ℚ) ((⌊y⌋ : ℤ) : ℚ) p2.2.2 with hp3
  set p4 := get_value R p3.2.1 ((⌈x⌉ : ℤ) : ℚ) ((⌈y⌉ : ℤ) : ℚ) p3.2.2 with hp4
  set p5 := get_value R p4.2.1 ((⌊x⌋ : ℤ) : ℚ) y p4.2.2 with hp5
  set p6 := get_value R p5.2.1 x ((⌊y⌋ : ℤ) : ℚ) p5.2.2 with hp6
  set p7 := get_value R p6.2.1 ((⌈x⌉ : ℤ) : ℚ) y p6.2.2 with hp7
  set p8 := get_value R p7.2.1 x ((⌈y⌉ : ℤ) : ℚ) p7.2.2 with hp8
  set p9 := get_value R p8.2.1 x y p8.2.2 with hp9
  have hsm : smooth_noise R vn x y g =
      ((p1.1 + p2.1 + p3.1 + p4.1) / 16 + (p5.1 + p6.1 + p7.1 + p8.1) / 8 +
        p9.1 / 4, p9.2.1, p9.2.2) := rfl
  have m2 : ∀ k v, lookupG p1.2.1 k = some v → lookupG p2.2.1 k = some v :=
    fun k v h => get_value_mono R p1.2.1 _ _ p1.2.2 k v h
  have m3 : ∀ k v, lookupG p2.2.1 k = some v → lookupG p3.2.1 k = some v :=
    fun k v h => get_value_mono R p2.2.1 _ _ p2.2.2 k v h
  have m4 : ∀ k v, lookupG p3.2.1 k = some v → lookupG p4.2.1 k = some v :=
    fun k v h => get_value_mono R p3.2.1 _ _ p3.2.2 k v h
  have m5 : ∀ k v, lookupG p4.2.1 k = some v → lookupG p5.2.1 k = some v :=
    fun k v h => get_value_mono R p4.2.1 _ _ p4.2.2 k v h
  have m6 : ∀ k v, lookupG p5.2.1 k = some v → lookupG p6.2.1 k = some v :=
    fun k v h => get_value_mono R p5.2.1 _ _ p5.2.2 k v h
  have m7 : ∀ k v, lookupG p6.2.1 k = some v → lookupG p7.2.1 k = some v :=
    fun k v h => get_value_mono R p6.2.1 _ _ p6.2.2 k v h
  have m8 : ∀ k v, lookupG p7.2.1 k = some v → lookupG p8.2.1 k = some v :=
    fun k v h => get_value_mono R p7.2.1 _ _ p7.2.2 k v h
  have m9 : ∀ k v, lookupG p8.2.1 k = some v → lookupG p9.2.1 k = some v :=
    fun k v h => get_value_mono R p8.2.1 _ _ p8.2.2 k v h
  have l1 : lookupG p9.2.1 (⌊x⌋, ⌊y⌋) = some p1.1 := by
    refine m9 _ _ (m8 _ _ (m7 _ _ (m6 _ _ (m5 _ _ (m4 _ _ (m3 _ _ (m2 _ _ ?_)))))))
    simpa [truncQ_intCast] using get_value_found R vn ((⌊x⌋ : ℤ) : ℚ) ((⌊y⌋ : ℤ) : ℚ) g
  have l2 : lookupG p9.2.1 (⌊x⌋, ⌈y⌉) = some p2.1 := by
    refine m9 _ _ (m8 _ _ (m7 _ _ (m6 _ _ (m5 _ _ (m4 _ _ (m3 _ _ ?_))))))
    simpa [truncQ_intCast] using get_value_found R p1.2.1 ((⌊x⌋ : ℤ) : ℚ) ((⌈y⌉ : ℤ) : ℚ) p1.2.2
  have l3 : lookupG p9.2.1 (⌈x⌉, ⌊y⌋) = some p3.1 := by
    refine m9 _ _ (m8 _ _ (m7 _ _ (m6 _ _ (m5 _ _ (m4 _ _ ?_)))))
    simpa [truncQ_intCast] using get_value_found R p2.2.1 ((⌈x⌉ : ℤ) : ℚ) ((⌊y⌋ : ℤ) : ℚ) p2.2.2
  have l4 : lookupG p9.2.1 (⌈x⌉, ⌈y⌉) = some p4.1 := by
    refine m9 _ _ (m8 _ _ (m7 _ _ (m6 _ _ (m5 _ _ ?_))))
    simpa [truncQ_intCast] using get_value_found R p3.2.1 ((⌈x⌉ : ℤ) : ℚ) ((⌈y⌉ : ℤ) : ℚ) p3.2.2
  have l5 : lookupG p9.2.1 (⌊x⌋, truncQ y) = some p5.1 := by
    refine m9 _ _ (m8 _ _ (m7 _ _ (m6 _ _ ?_)))
    simpa [truncQ_intCast] using get_value_found R p4.2.1 ((⌊x⌋ : ℤ) : ℚ) y p4.2.2
  have l6 : lookupG p9.2.1 (truncQ x, ⌊y⌋) = some p6.1 := by
    refine m9 _ _ (m8 _ _ (m7 _ _ ?_))
    simpa [truncQ_intCast] using get_value_found R p5.2.1 x ((⌊y⌋ : ℤ) : ℚ) p5.2.2
  have l7 : lookupG p9.2.1 (⌈x⌉, truncQ y) = some p7.1 := by
    refine m9 _ _ (m8 _ _ ?_)
    simpa [truncQ_intCast] using get_value_found R p6.2.1 ((⌈x⌉ : ℤ) : ℚ) y p6.2.2
  have l8 : lookupG p9.2.1 (truncQ x, ⌈y⌉) = some p8.1 := by
    refine m9 _ _ ?_
    simpa [truncQ_intCast] using get_value_found R p7.2.1 x ((⌈y⌉ : ℤ) : ℚ) p7.2.2
  have l9 : lookupG p9.2.1 (truncQ x, truncQ y) = some p9.1 :=
    get_value_found R p8.2.1 x y p8.2.2
  have b1 := get_value_bound R hR vn hvn ((⌊x⌋ : ℤ) : ℚ) ((⌊y⌋ : ℤ) : ℚ) g
  have b2 := get_value_bound R hR p1.2.1 b1.2 ((⌊x⌋ : ℤ) : ℚ) ((⌈y⌉ : ℤ) : ℚ) p1.2.2
  have b3 := get_value_bound R hR p2.2.1 b2.2 ((⌈x⌉ : ℤ) : ℚ) ((⌊y⌋ : ℤ) : ℚ) p2.2.2
  have b4 := get_value_bound R hR p3.2.1 b3.2 ((⌈x⌉ : ℤ) : ℚ) ((⌈y⌉ : ℤ) : ℚ) p3.2.2
  have b5 := get_value_bound R hR p4.2.1 b4.2 ((⌊x⌋ : ℤ) : ℚ) y p4.2.2
  have b6 := get_value_bound R hR p5.2.1 b5.2 x ((⌊y⌋ : ℤ) : ℚ) p5.2.2
  have b7 := get_value_bound R hR p6.2.1 b6.2 ((⌈x⌉ : ℤ) : ℚ) y p6.2.2
  have b8 := get_value_bound R hR p7.2.1 b7.2 x ((⌈y⌉ : ℤ) : ℚ) p7.2.2
  have b9 := get_value_bound R hR p8.2.1 b8.2 x y p8.2.2
  rw [hsm]
  refine ⟨?_, ?_, ?_⟩
  · simp only [gridValD, l1, l2, l3, l4, l5, l6, l7, l8, l9, Option.getD_some]
  · obtain ⟨⟨h10, _⟩, _⟩ := b1
    obtain ⟨⟨h20, _⟩, _⟩ := b2
    obtain ⟨⟨h30, _⟩, _⟩ := b3
    obtain ⟨⟨h40, _⟩, _⟩ := b4
    obtain ⟨⟨h50, _⟩, _⟩ := b5
    obtain ⟨⟨h60, _⟩, _⟩ := b6
    obtain ⟨⟨h70, _⟩, _⟩ := b7
    obtain ⟨⟨h80, _⟩, _⟩ := b8
    obtain ⟨⟨h90, _⟩, _⟩ := b9
    show (0 : ℚ) ≤ (p1.1 + p2.1 + p3.1 + p4.1) / 16 +
      (p5.1 + p6.1 + p7.1 + p8.1) / 8 + p9.1 / 4
    linarith
  · obtain ⟨⟨h10, h11⟩, _⟩ := b1
    obtain ⟨⟨h20, h21⟩, _⟩ := b2
    obtain ⟨⟨h30, h31⟩, _⟩ := b3
    obtain ⟨⟨h40, h41⟩, _⟩ := b4
    obtain ⟨⟨h50, h51⟩, _⟩ := b5
    obtain ⟨⟨h60, h61⟩, _⟩ := b6
    obtain ⟨⟨h70, h71⟩, _⟩ := b7
    obtain ⟨⟨h80, h81⟩, _⟩ := b8
    obtain ⟨⟨h90, h91⟩, _⟩ := b9
    show (p1.1 + p2.1 + p3.1 + p4.1) / 16 +
      (p5.1 + p6.1 + p7.1 + p8.1) / 8 + p9.1 / 4 < 1
    linarith

/-- A degenerate model instance of the global RNG whose `random()` always
returns `1/2`; used to witness `C8_smooth_noise`. -/
def halfRNG : PyRandom where
  State := Unit
  seed := fun _ => ()
  shuffle := fun l _ => (l, ())
  random := fun _ => (1/2, ())

/-- Witness for `C8_smooth_noise` at a concrete input. -/
theorem C8_smooth_noise_witness :
    (∀ g2 : Unit, 0 ≤ (halfRNG.random g2).1 ∧ (halfRNG.random g2).1 < 1) ∧
    (∀ kv ∈ ([] : VGrid), 0 ≤ kv.2 ∧ kv.2 < 1) ∧
    ((smooth_noise halfRNG [] (1/2) (1/2) ()).1 =
      (gridValD (smooth_noise halfRNG [] (1/2) (1/2) ()).2.1 (⌊(1/2 : ℚ)⌋, ⌊(1/2 : ℚ)⌋) +
       gridValD (smooth_noise halfRNG [] (1/2) (1/2) ()).2.1 (⌊(1/2 : ℚ)⌋, ⌈(1/2 : ℚ)⌉) +
       gridValD (smooth_noise halfRNG [] (1/2) (1/2) ()).2.1 (⌈(1/2 : ℚ)⌉, ⌊(1/2 : ℚ)⌋) +
       gridValD (smooth_noise halfRNG [] (1/2) (1/2) ()).2.1 (⌈(1/2 : ℚ)⌉, ⌈(1/2 : ℚ)⌉)) / 16 +
      (gridValD (smooth_noise halfRNG [] (1/2) (1/2) ()).2.1 (⌊(1/2 : ℚ)⌋, truncQ (1/2)) +
       gridValD (smooth_noise halfRNG [] (1/2) (1/2) ()).2.1 (truncQ (1/2), ⌊(1/2 : ℚ)⌋) +
       gridValD (smooth_noise halfRNG [] (1/2) (1/2) ()).2.1 (⌈(1/2 : ℚ)⌉, truncQ (1/2)) +
       gridValD (smooth_noise halfRNG [] (1/2) (1/2) ()).2.1 (truncQ (1/2), ⌈(1/2 : ℚ)⌉)) / 8 +
      gridValD (smooth_noise halfRNG [] (1/2) (1/2) ()).2.1 (truncQ (1/2), truncQ (1/2)) / 4 ∧
    0 ≤ (smooth_noise halfRNG [] (1/2) (1/2) ()).1 ∧
    (smooth_noise halfRNG [] (1/2) (1/2) ()).1 < 1) :=
  ⟨fun _ => ⟨show (0 : ℚ) ≤ 1/2 by norm_num, show (1/2 : ℚ) < 1 by norm_num⟩,
   fun kv hkv => absurd hkv (List.not_mem_nil kv),
   C8_smooth_noise halfRNG
     (fun _ => ⟨show (0 : ℚ) ≤ 1/2 by norm_num, show (1/2 : ℚ) < 1 by norm_num⟩) []
     (fun kv hkv => absurd hkv (List.not_mem_nil kv)) (1/2) (1/2) ()⟩

end NewRPG
